import Mathlib

/-!
Shallow embedding of `src/tetris_project/controller.py`: the controller layer
of a Tetris-playing agent (human controller, DQN model, epsilon-greedy trainer
controller, greedy player controller).

Modelling conventions:

* Python floats are modelled as `ℚ` (exact arithmetic; the claims under study
  are structural, not about floating-point rounding).
* `torch.exp` inside `nn.Softmax` is transcendental, hence not computable on
  `ℚ`; the network takes the exponential map as an explicit parameter
  `exp : ℚ → ℚ`.  Every theorem quantifies over `exp`, so nothing proved
  depends on its concrete values.
* A Python `set[Action]` is carried as a `List Action` standing for the set's
  (arbitrary) iteration order.  Crucially, Python sets do NOT implement
  `__getitem__`: integer subscription of a set raises `TypeError`.  This is
  embedded by `pySetSubscript`, which always returns that error.
* A Python `dict` built by the comprehension `{a.id: a for a in actions}` is
  embedded as the lookup function `mkActionMap`; on duplicate keys the last
  insertion wins, exactly as in Python.
* `np.random` global state is an explicit `Rng` value threaded through the
  functions that consume randomness: a stream of uniform floats (for
  `np.random.rand`) and a stream of pick indices (for `np.random.choice`,
  taken modulo the population size so that a pick is always a member).
* Fallible operations return `Except PyErr _` where the Python code can raise.
-/

namespace TetrisProject

/-- A Python exception, as far as this file can raise one. -/
inductive PyErr where
  | typeError
  | keyError
  | valueError
  | ioError
  | shapeError
deriving DecidableEq, Repr

instance {ε α : Type} [DecidableEq ε] [DecidableEq α] :
    DecidableEq (Except ε α) := fun x y =>
  match x, y with
  | .ok a, .ok b =>
      if h : a = b then .isTrue (by rw [h]) else .isFalse (by simp [h])
  | .error e, .error f =>
      if h : e = f then .isTrue (by rw [h]) else .isFalse (by simp [h])
  | .ok _, .error _ => .isFalse (by simp)
  | .error _, .ok _ => .isFalse (by simp)

/-- `Action` (external collaborator contract): a stable integer id. -/
structure Action where
  id : Nat
deriving DecidableEq, Repr

/-- Integer subscription of a Python `set`: sets implement no `__getitem__`,
so `s[i]` raises `TypeError` regardless of the set or the index. -/
def pySetSubscript {α : Type} (_s : List α) (_i : Nat) : Except PyErr α :=
  .error .typeError

/-- The dict comprehension `{action.id: action for action in actions}` from
`Controller.__init__`, as a lookup function.  Python dicts keep the last
write to a key, hence `getLast?` over the matching entries. -/
def mkActionMap (actions : List Action) : Nat → Option Action :=
  fun k => (actions.filter (fun a => a.id = k)).getLast?

/-- `Controller.__init__`: stores the action set and the id→Action map. -/
structure Controller where
  actions : List Action
  actionMap : Nat → Option Action

/-- Construction of the abstract `Controller`: `self.actions = actions;
self.action_map = {action.id: action for action in actions}`. -/
def Controller.init (actions : List Action) : Controller :=
  { actions := actions, actionMap := mkActionMap actions }

/-! ## Numeric primitives (torch operations used by the code) -/

/-- Dot product of two rational vectors. -/
def dot (xs ys : List ℚ) : ℚ :=
  ((xs.zip ys).map (fun p => p.1 * p.2)).sum

/-- `nn.Linear` applied to a vector: each output is a weight row dotted with
the input, plus the bias. -/
def linear (w : List (List ℚ)) (b : List ℚ) (x : List ℚ) : List ℚ :=
  (w.zip b).map (fun rb => dot rb.1 x + rb.2)

/-- `torch.relu` applied elementwise. -/
def reluVec (x : List ℚ) : List ℚ :=
  x.map (fun v => max 0 v)

/-- `nn.Softmax(dim=0)` on a vector, with the exponential map passed in. -/
def softmax (exp : ℚ → ℚ) (x : List ℚ) : List ℚ :=
  let e := x.map exp
  e.map (fun v => v / e.sum)

/-- `torch.max` of a tensor's entries (used on `next_q_values`).  `torch.max`
raises on an empty tensor; the `[]` case is a placeholder never reached under
the nonemptiness hypotheses of the theorems below. -/
def listMax : List ℚ → ℚ
  | [] => 0
  | [x] => x
  | x :: y :: t => max x (listMax (y :: t))

/-- `torch.argmax` on a vector: the index of the first maximal entry
(PyTorch returns the index of the first maximal value). -/
def argmaxIdx : List ℚ → Nat
  | [] => 0
  | [_] => 0
  | x :: y :: t => if listMax (y :: t) ≤ x then 0 else argmaxIdx (y :: t) + 1

/-! ## The DQN module -/

/-- The learnable parameters of the `DQN` module (its `state_dict()`):
three weight matrices and three bias vectors. -/
structure StateDict where
  w1 : List (List ℚ)
  b1 : List ℚ
  w2 : List (List ℚ)
  b2 : List ℚ
  w3 : List (List ℚ)
  b3 : List ℚ
deriving DecidableEq, Repr

/-- The per-tensor shapes of a state dict, used by `load_state_dict` to
reject architecture mismatches. -/
def sdShape (sd : StateDict) : List (List Nat) :=
  [[sd.w1.length], sd.w1.map List.length, [sd.b1.length],
   [sd.w2.length], sd.w2.map List.length, [sd.b2.length],
   [sd.w3.length], sd.w3.map List.length, [sd.b3.length]]

/-- The `DQN` module: construction sizes plus current parameters. -/
structure DQN where
  inputSize : Nat
  outputSize : Nat
  params : StateDict
deriving DecidableEq, Repr

/-- Well-formedness from `DQN.__init__`: `fc1 : Linear(input_size, 128)`,
`fc2 : Linear(128, 64)`, `fc3 : Linear(64, output_size)`. -/
def DQN.WF (net : DQN) : Prop :=
  net.params.w1.length = 128 ∧ (∀ r ∈ net.params.w1, r.length = net.inputSize) ∧
  net.params.b1.length = 128 ∧
  net.params.w2.length = 64 ∧ (∀ r ∈ net.params.w2, r.length = 128) ∧
  net.params.b2.length = 64 ∧
  net.params.w3.length = net.outputSize ∧ (∀ r ∈ net.params.w3, r.length = 64) ∧
  net.params.b3.length = net.outputSize

/-- `DQN.forward`: `x = relu(fc1(x)); x = relu(fc2(x)); x = fc3(x);
return softmax(x)`. -/
def DQN.forward (exp : ℚ → ℚ) (net : DQN) (x : List ℚ) : List ℚ :=
  let x1 := reluVec (linear net.params.w1 net.params.b1 x)
  let x2 := reluVec (linear net.params.w2 net.params.b2 x1)
  let x3 := linear net.params.w3 net.params.b3 x2
  softmax exp x3

/-- The checkpoint store: what `torch.save`/`torch.load` see of the file
system, a map from paths to serialized state dicts. -/
def FS : Type := String → Option StateDict

/-- `DQN.save`: `torch.save(self.state_dict(), path)` — writes (overwriting)
the current parameters at `path`. -/
def DQN.save (net : DQN) (path : String) (fs : FS) : FS :=
  fun p => if p = path then some net.params else fs p

/-- `DQN.load`: `self.load_state_dict(torch.load(path))` — fails if the file
is absent or the stored shapes do not match the current architecture,
otherwise replaces the current parameters. -/
def DQN.load (net : DQN) (path : String) (fs : FS) : Except PyErr DQN :=
  match fs path with
  | none => .error .ioError
  | some sd =>
      if sdShape sd = sdShape net.params then .ok { net with params := sd }
      else .error .shapeError

/-! ## Randomness

`np.random` is a hidden global stream; it is made explicit here. -/

/-- The global `np.random` state: a stream of uniform draws in `[0,1)`
(consumed by `np.random.rand`) and a stream of pick indices (consumed by
`np.random.choice`), with the current positions in each stream. -/
structure Rng where
  floats : Nat → ℚ
  picks : Nat → Nat
  fpos : Nat
  ppos : Nat

/-- `np.random.rand()`: the next uniform draw, advancing the stream. -/
def Rng.nextFloat (r : Rng) : ℚ × Rng :=
  (r.floats r.fpos, { r with fpos := r.fpos + 1 })

/-- `np.random.choice(lst)`: a uniformly random element of `lst`.  The choice
is modelled by the next pick index reduced modulo the population size — a
member of the list whenever the list is nonempty, which is all the claims
need of the distribution.  On an empty population `np.random.choice` raises
`ValueError`; the caller observes that through `List.get?` coming back
`none`. -/
def Rng.nextPick (r : Rng) : Nat × Rng :=
  (r.picks r.ppos, { r with ppos := r.ppos + 1 })

/-! ## HumanController -/

/-- `HumanController.__init__`: the base `Controller` plus the
token → Action input map (a Python `Mapping`, embedded as its lookup). -/
structure HumanController where
  base : Controller
  inputMap : String → Option Action

/-- Construction of a `HumanController`. -/
def HumanController.init (actions : List Action)
    (inputMap : String → Option Action) : HumanController :=
  { base := Controller.init actions, inputMap := inputMap }

/-- `HumanController.get_action`: ignores the passed state and loops:
read a token, look it up in `self.input_map` (`KeyError` if absent), then
look the mapped action's id up in `self.action_map` (`KeyError` if absent);
a `KeyError` from either lookup is caught, prints `"Invalid action"` and
re-enters the loop.  The standard input is embedded as the list of tokens
the user will type; the return value is the list of printed error messages
together with the returned action (`none` when the input is exhausted,
where the real `input()` would raise an uncaught `EOFError`). -/
def HumanController.getAction (hc : HumanController) :
    List String → List String × Option Action
  | [] => ([], none)
  | t :: ts =>
    match hc.inputMap t with
    | none =>
        let r := HumanController.getAction hc ts
        ("Invalid action" :: r.1, r.2)
    | some a =>
        match hc.base.actionMap a.id with
        | none =>
            let r := HumanController.getAction hc ts
            ("Invalid action" :: r.1, r.2)
        | some a2 => ([], some a2)

/-- A token resolves when both lookups of `HumanController.get_action`
succeed: the input map knows the token and the action map knows the mapped
action's id. -/
def HumanController.resolve (hc : HumanController) (t : String) :
    Option Action :=
  match hc.inputMap t with
  | none => none
  | some a => hc.base.actionMap a.id

/-! ## DQNTrainerController -/

/-- `DQNTrainerController.__init__`: base controller, shared model,
exploration probability `epsilon`. -/
structure DQNTrainerController where
  base : Controller
  model : DQN
  epsilon : ℚ

/-- Construction of a `DQNTrainerController`. -/
def DQNTrainerController.init (actions : List Action) (model : DQN)
    (epsilon : ℚ) : DQNTrainerController :=
  { base := Controller.init actions, model := model, epsilon := epsilon }

/-- `DQNTrainerController.get_action`: draw `np.random.rand()`; if below
`epsilon`, return `np.random.choice(list(self.actions))`; otherwise run the
forward pass under `torch.no_grad()` and return
`self.action_map[torch.argmax(q_values).item()]` (a missing id raises
`KeyError`).  The state argument is its feature vector `state.to_tensor()`. -/
def DQNTrainerController.getAction (exp : ℚ → ℚ) (tc : DQNTrainerController)
    (state : List ℚ) (rng : Rng) : Except PyErr Action × Rng :=
  let u := rng.nextFloat
  if u.1 < tc.epsilon then
    let lst := tc.base.actions
    let k := u.2.nextPick
    match lst.get? (k.1 % lst.length) with
    | some a => (.ok a, k.2)
    | none => (.error .valueError, k.2)
  else
    let q := DQN.forward exp tc.model state
    match tc.base.actionMap (argmaxIdx q) with
    | some a => (.ok a, u.2)
    | none => (.error .keyError, u.2)

/-- The observable record of one `DQNTrainerController.train` call. -/
structure TrainResult where
  /-- `q_values = self.model(state_tensor)` -/
  qValues : List ℚ
  /-- `next_q_values = self.model(next_state_tensor)` -/
  nextQValues : List ℚ
  /-- `target_q_values = q_values.clone();
  target_q_values[action.id] = reward + torch.max(next_q_values)` -/
  targetQValues : List ℚ
  /-- `loss = criterion(q_values, target_q_values)` with `nn.MSELoss()` -/
  loss : ℚ
  /-- the optimizer constructed by this call is `optim.Adam` -/
  optimizerIsAdam : Bool
  /-- the learning rate it is constructed with (`lr=0.001`) -/
  optimizerLR : ℚ
  /-- number of `optimizer.zero_grad()` calls made -/
  zeroGradCalls : Nat
  /-- number of `loss.backward()` calls made -/
  backwardCalls : Nat
  /-- number of `optimizer.step()` calls made -/
  stepCalls : Nat

/-- `DQNTrainerController.train`.  The numeric effect of the single
`optimizer.step()` on the parameters runs through floating-point autograd
(gradients of `exp` among others), which the rational model leaves abstract
as the `adamUpdate` argument; everything else — both forward passes, the
target vector, the loss, and which optimizer is built and stepped — is
computed.  Returns the call's observable record together with the
controller as it stands after the call (the parameter update is the only
mutation). -/
def DQNTrainerController.train (exp : ℚ → ℚ) (adamUpdate : DQN → DQN)
    (tc : DQNTrainerController) (state : List ℚ) (action : Action)
    (nextState : List ℚ) (reward : ℚ) :
    TrainResult × DQNTrainerController :=
  let q := DQN.forward exp tc.model state
  let nq := DQN.forward exp tc.model nextState
  let target := q.set action.id (reward + listMax nq)
  let loss := ((q.zip target).map (fun p => (p.1 - p.2) ^ 2)).sum / (q.length : ℚ)
  ({ qValues := q, nextQValues := nq, targetQValues := target, loss := loss,
     optimizerIsAdam := true, optimizerLR := 1 / 1000,
     zeroGradCalls := 1, backwardCalls := 1, stepCalls := 1 },
   { tc with model := adamUpdate tc.model })

/-- `DQNTrainerController.evaluate`: `state.score + state.turn`. -/
def DQNTrainerController.evaluate (score turn : ℚ) : ℚ :=
  score + turn

/-! ## DQNPlayerController -/

/-- `DQNPlayerController.__init__`: base controller and trained model. -/
structure DQNPlayerController where
  base : Controller
  model : DQN

/-- Construction of a `DQNPlayerController`. -/
def DQNPlayerController.init (actions : List Action) (model : DQN) :
    DQNPlayerController :=
  { base := Controller.init actions, model := model }

/-- `DQNPlayerController.get_action`: under `torch.no_grad()` compute
`q_values = self.model(state_tensor)` and return
`self.actions[torch.argmax(q_values).item()]`.  `self.actions` is a Python
`set` (so annotated and so consumed everywhere else in the file), and
integer subscription of a set raises `TypeError`. -/
def DQNPlayerController.getAction (exp : ℚ → ℚ) (pc : DQNPlayerController)
    (state : List ℚ) : Except PyErr Action :=
  let q := DQN.forward exp pc.model state
  pySetSubscript pc.base.actions (argmaxIdx q)

/-- `DQNPlayerController.get_action` with the hidden `np.random` state made
explicit, to express frame properties: the body contains no `np.random`
call and assigns no attribute, so the controller and the random stream come
back as they went in. -/
def DQNPlayerController.getActionS (exp : ℚ → ℚ) (pc : DQNPlayerController)
    (state : List ℚ) (rng : Rng) :
    Except PyErr Action × DQNPlayerController × Rng :=
  (DQNPlayerController.getAction exp pc state, pc, rng)

/-! ## Helper lemmas: argmax and max -/

/-- `i` is the index of the first maximal entry of `l`: it is in range, every
entry is bounded by the entry at `i`, and any index carrying a value at least
as large lies at or after `i`. -/
def IsFirstMax (l : List ℚ) (i : Nat) : Prop :=
  i < l.length ∧ (∀ j, j < l.length → l.getD j 0 ≤ l.getD i 0) ∧
  (∀ j, j < l.length → l.getD i 0 ≤ l.getD j 0 → i ≤ j)

theorem getD_le_listMax : ∀ (l : List ℚ) (j : Nat), j < l.length →
    l.getD j 0 ≤ listMax l
  | [], _, h => by simp at h
  | [x], 0, _ => by simp [listMax]
  | [x], j + 1, h => by simp at h
  | x :: y :: t, 0, _ => by
      simp only [List.getD_cons_zero, listMax]
      exact le_max_left x (listMax (y :: t))
  | x :: y :: t, j + 1, h => by
      have ih := getD_le_listMax (y :: t) j (by simpa using h)
      calc (x :: y :: t).getD (j + 1) 0 = (y :: t).getD j 0 := by simp
        _ ≤ listMax (y :: t) := ih
        _ ≤ listMax (x :: y :: t) := by
              simp only [listMax]
              exact le_max_right x (listMax (y :: t))

theorem argmaxIdx_lt_length : ∀ (l : List ℚ), l ≠ [] → argmaxIdx l < l.length
  | [], h => absurd rfl h
  | [x], _ => by simp [argmaxIdx]
  | x :: y :: t, _ => by
      by_cases hx : listMax (y :: t) ≤ x
      · simp [argmaxIdx, hx]
      · have ih := argmaxIdx_lt_length (y :: t) (by simp)
        simp only [List.length_cons] at ih
        simp only [argmaxIdx, if_neg hx, List.length_cons]
        omega

theorem getD_argmaxIdx : ∀ (l : List ℚ), l ≠ [] →
    l.getD (argmaxIdx l) 0 = listMax l
  | [], h => absurd rfl h
  | [x], _ => by simp [argmaxIdx, listMax]
  | x :: y :: t, _ => by
      by_cases hx : listMax (y :: t) ≤ x
      · simp [argmaxIdx, hx, listMax, max_eq_left hx]
      · have ih := getD_argmaxIdx (y :: t) (by simp)
        have hlt : x < listMax (y :: t) := lt_of_not_le hx
        simp only [argmaxIdx, if_neg hx, List.getD_cons_succ, ih, listMax]
        exact (max_eq_right (le_of_lt hlt)).symm

theorem argmaxIdx_le_of_max_le : ∀ (l : List ℚ) (j : Nat), j < l.length →
    listMax l ≤ l.getD j 0 → argmaxIdx l ≤ j
  | [], j, h, _ => by simp at h
  | [x], j, _, _ => by simp [argmaxIdx]
  | x :: y :: t, j, hj, hle => by
      by_cases hx : listMax (y :: t) ≤ x
      · simp [argmaxIdx, hx]
      · have hlt : x < listMax (y :: t) := lt_of_not_le hx
        have hmax : listMax (x :: y :: t) = listMax (y :: t) := by
          simp [listMax, max_eq_right (le_of_lt hlt)]
        cases j with
        | zero =>
            rw [hmax] at hle
            simp only [List.getD_cons_zero] at hle
            exact absurd hle (not_le_of_lt hlt)
        | succ j' =>
            have ih := argmaxIdx_le_of_max_le (y :: t) j' (by simpa using hj)
              (by rw [hmax] at hle; simpa using hle)
            simp only [argmaxIdx, if_neg hx]
            omega

theorem argmaxIdx_isFirstMax (l : List ℚ) (h : l ≠ []) :
    IsFirstMax l (argmaxIdx l) := by
  refine ⟨argmaxIdx_lt_length l h, ?_, ?_⟩
  · intro j hj
    rw [getD_argmaxIdx l h]
    exact getD_le_listMax l j hj
  · intro j hj hle
    rw [getD_argmaxIdx l h] at hle
    exact argmaxIdx_le_of_max_le l j hj hle

/-! ## Helper lemmas: lists, the action map -/

theorem getD_set_eq_if (v : ℚ) : ∀ (l : List ℚ) (k i : Nat), i < l.length →
    (l.set k v).getD i 0 = if i = k then v else l.getD i 0
  | [], _, i, hi => by simp at hi
  | x :: xs, 0, 0, _ => by simp
  | x :: xs, 0, i + 1, _ => by simp
  | x :: xs, k + 1, 0, _ => by simp
  | x :: xs, k + 1, i + 1, hi => by
      have ih := getD_set_eq_if v xs k i (by simpa using hi)
      simpa [Nat.succ_inj] using ih

theorem zip_map_sub_sq_sum : ∀ (p t : List ℚ), p.length = t.length →
    ((p.zip t).map (fun x => (x.1 - x.2) ^ 2)).sum =
      ∑ i ∈ Finset.range p.length, (p.getD i 0 - t.getD i 0) ^ 2
  | [], [], _ => by simp
  | [], b :: t, h => by simp at h
  | a :: p, [], h => by simp at h
  | a :: p, b :: t, h => by
      have ih := zip_map_sub_sq_sum p t (by simpa using h)
      simp only [List.zip_cons_cons, List.map_cons, List.sum_cons, ih,
        List.length_cons]
      rw [Finset.sum_range_succ']
      simp [add_comm]

theorem mem_of_getLastQ {α : Type} : ∀ (l : List α) (a : α),
    l.getLast? = some a → a ∈ l
  | [], a, h => by simp at h
  | [x], a, h => by
      simp only [List.getLast?_singleton, Option.some.injEq] at h
      simp [h]
  | x :: y :: t, a, h => by
      rw [List.getLast?_cons_cons] at h
      exact List.mem_cons_of_mem x (mem_of_getLastQ (y :: t) a h)

theorem filter_id_singleton : ∀ (actions : List Action),
    (actions.map Action.id).Nodup → ∀ a ∈ actions,
      actions.filter (fun b => b.id = a.id) = [a]
  | [], _, a, ha => absurd ha (List.not_mem_nil a)
  | c :: rest, hnd, a, ha => by
      simp only [List.map_cons, List.nodup_cons] at hnd
      obtain ⟨hc, hrest⟩ := hnd
      rcases List.mem_cons.mp ha with rfl | ha'
      · have hnil : rest.filter (fun b => b.id = a.id) = [] := by
          rw [List.filter_eq_nil_iff]
          intro b hb
          simp only [decide_eq_true_eq]
          intro hid
          exact hc (List.mem_map.mpr ⟨b, hb, hid⟩)
        simp [List.filter_cons, hnil]
      · have hne : ¬ (c.id = a.id) := by
          intro hid
          exact hc (List.mem_map.mpr ⟨a, ha', hid.symm ▸ rfl⟩)
        have ih := filter_id_singleton rest hrest a ha'
        simp [List.filter_cons, hne, ih]

/-- With unique ids, the constructed map sends each action's id back to the
action itself. -/
theorem mkActionMap_lookup (actions : List Action)
    (hnd : (actions.map Action.id).Nodup) (a : Action) (ha : a ∈ actions) :
    mkActionMap actions a.id = some a := by
  unfold mkActionMap
  rw [filter_id_singleton actions hnd a ha]
  rfl

/-- Anything the constructed map returns is a member of the action set. -/
theorem mkActionMap_mem (actions : List Action) (k : Nat) (a : Action)
    (h : mkActionMap actions k = some a) : a ∈ actions := by
  unfold mkActionMap at h
  exact List.mem_of_mem_filter (mem_of_getLastQ _ a h)

/-! ## Helper lemmas: HumanController -/

/-- A token on which neither lookup succeeds (unknown token, or known token
whose action id is absent from the action map) prints one error message and
re-enters the loop on the rest of the input. -/
theorem getAction_cons_fail (hc : HumanController) (t : String)
    (ts : List String) (h : hc.resolve t = none) :
    hc.getAction (t :: ts) =
      ("Invalid action" :: (hc.getAction ts).1, (hc.getAction ts).2) := by
  unfold HumanController.resolve at h
  cases h1 : hc.inputMap t with
  | none => simp [HumanController.getAction, h1]
  | some a =>
      simp only [h1] at h
      simp [HumanController.getAction, h1, h]

/-- A token on which both lookups succeed ends the loop at once with the
looked-up action and no error message. -/
theorem getAction_cons_ok (hc : HumanController) (t : String)
    (ts : List String) (a : Action) (h : hc.resolve t = some a) :
    hc.getAction (t :: ts) = ([], some a) := by
  unfold HumanController.resolve at h
  cases h1 : hc.inputMap t with
  | none => simp [h1] at h
  | some a' =>
      simp only [h1] at h
      simp [HumanController.getAction, h1, h]

/-- Whatever a constructed `HumanController` resolves a token to lies in its
action set. -/
theorem resolve_mem_of_init (actions : List Action)
    (im : String → Option Action) (t : String) (a : Action)
    (h : (HumanController.init actions im).resolve t = some a) :
    a ∈ actions := by
  unfold HumanController.resolve at h
  cases h1 : (HumanController.init actions im).inputMap t with
  | none => simp [h1] at h
  | some act =>
      simp only [h1] at h
      exact mkActionMap_mem actions act.id a h

/-! ## Concrete instances (used by witnesses and counterexamples) -/

/-- The `Left` action of the scenario in the spec. -/
def leftA : Action := ⟨0⟩

/-- The `Right` action of the scenario in the spec. -/
def rightA : Action := ⟨1⟩

/-- A small network instance (shapes scaled down: the claims evaluated on it
are shape-independent). -/
def demoNet : DQN :=
  { inputSize := 1, outputSize := 2,
    params := { w1 := [[1]], b1 := [0], w2 := [[1]], b2 := [0],
                w3 := [[1], [2]], b3 := [0, 0] } }

/-- A second parameter setting with the same shapes as `demoNet`. -/
def demoNet2 : DQN :=
  { inputSize := 1, outputSize := 2,
    params := { w1 := [[2]], b1 := [1], w2 := [[3]], b2 := [0],
                w3 := [[0], [1]], b3 := [1, 0] } }

/-- A network instance with the exact shapes `DQN.__init__` builds
(`Linear(2, 128)`, `Linear(128, 64)`, `Linear(64, 3)`). -/
def wfNet : DQN :=
  { inputSize := 2, outputSize := 3,
    params := { w1 := List.replicate 128 [0, 0], b1 := List.replicate 128 0,
                w2 := List.replicate 64 (List.replicate 128 0),
                b2 := List.replicate 64 0,
                w3 := List.replicate 3 (List.replicate 64 0),
                b3 := [0, 0, 0] } }

theorem wfNet_wf : DQN.WF wfNet := by
  refine ⟨rfl, ?_, rfl, rfl, ?_, rfl, rfl, ?_, rfl⟩ <;>
    · intro r hr
      rw [List.eq_of_mem_replicate hr]
      rfl

/-- A concrete random state: next uniform draw `1/4`, next pick index `0`. -/
def demoRng : Rng :=
  { floats := fun _ => 1 / 4, picks := fun _ => 0, fpos := 0, ppos := 0 }

/-- The HumanController of the spec's scenario: actions `{Left, Right}`,
input map `{"l": Left, "r": Right}`. -/
def hcLR : HumanController :=
  HumanController.init [leftA, rightA]
    (fun t => if t = "l" then some leftA
              else if t = "r" then some rightA else none)

/-! ## Claim theorems -/

/-- C1: the claim says `DQNPlayerController.get_action` computes the forward
pass and returns the action at the argmax index.  The code instead evaluates
`self.actions[torch.argmax(q_values).item()]`, and `self.actions` is a Python
`set` (so annotated, and so consumed by every other use in the file), which
does not support integer subscription: for every exponential map, every
player controller and every state the call raises `TypeError` instead of
returning an action.  (The trainer's greedy branch uses
`self.action_map[...]`; the player was clearly meant to do the same.) -/
theorem player_getAction_raises_typeError (exp : ℚ → ℚ)
    (pc : DQNPlayerController) (s : List ℚ) :
    DQNPlayerController.getAction exp pc s = .error .typeError := rfl

/-- C2: the claim says the trainer with `epsilon = 0` returns the same action
as the player on the same network and state.  On the concrete network
`demoNet`, state `[1]` and action set `{Left, Right}`, the trainer with
`epsilon = 0` returns `Right` while the player raises `TypeError`, so the two
do not agree; the divergence is forced by the player-side bug of C1, not by
the trainer, whose greedy branch does exactly what the claim describes. -/
theorem trainer_eps0_diverges_from_player :
    ((DQNTrainerController.init [leftA, rightA] demoNet 0).getAction
        (fun v => v) [1] demoRng).1 = .ok rightA ∧
    (DQNPlayerController.init [leftA, rightA] demoNet).getAction
        (fun v => v) [1] = .error .typeError := by
  constructor
  · norm_num [DQNTrainerController.getAction, DQNTrainerController.init,
      Controller.init, Rng.nextFloat, demoRng, demoNet, DQN.forward, linear,
      dot, reluVec, softmax, argmaxIdx, listMax, mkActionMap, leftA, rightA]
  · rfl

/-- C8: saving a network at a path and loading that path into a network of
identical architecture succeeds and restores the saved parameters, so the
forward pass of the loaded network agrees with the saved one on every probe
input (and for every exponential map). -/
theorem save_load_roundtrip (net net2 : DQN) (path : String) (fs : FS)
    (hshape : sdShape net2.params = sdShape net.params) :
    DQN.load net2 path (DQN.save net path fs) =
      .ok { net2 with params := net.params } ∧
    ∀ (exp : ℚ → ℚ) (x : List ℚ),
      DQN.forward exp { net2 with params := net.params } x =
        DQN.forward exp net x := by
  constructor
  · unfold DQN.load DQN.save
    simp [hshape]
  · intro exp x
    rfl

/-- C8 witness: `demoNet2` has the same shapes as `demoNet`; loading the
saved parameters of `demoNet` into it succeeds and restores them. -/
theorem save_load_roundtrip_witness :
    sdShape demoNet2.params = sdShape demoNet.params ∧
    DQN.load demoNet2 "model.pt" (DQN.save demoNet "model.pt" (fun _ => none)) =
      .ok { demoNet2 with params := demoNet.params } := by
  refine ⟨by decide, ?_⟩
  exact (save_load_roundtrip demoNet demoNet2 "model.pt" (fun _ => none)
    (by decide)).1

/-- C9: `DQNPlayerController.get_action` has no side effects: the model
parameters, action set and action map it runs with are the ones it leaves
behind, the random streams are not consumed (both positions unchanged), and
the outcome does not depend on the random state at all. -/
theorem player_getAction_frame (exp : ℚ → ℚ) (pc : DQNPlayerController)
    (s : List ℚ) (rng : Rng) :
    (DQNPlayerController.getActionS exp pc s rng).2.1.model = pc.model ∧
    (DQNPlayerController.getActionS exp pc s rng).2.1.base.actions =
      pc.base.actions ∧
    (DQNPlayerController.getActionS exp pc s rng).2.1.base.actionMap =
      pc.base.actionMap ∧
    (DQNPlayerController.getActionS exp pc s rng).2.2.fpos = rng.fpos ∧
    (DQNPlayerController.getActionS exp pc s rng).2.2.ppos = rng.ppos ∧
    ∀ rng' : Rng,
      (DQNPlayerController.getActionS exp pc s rng').1 =
        (DQNPlayerController.getActionS exp pc s rng).1 :=
  ⟨rfl, rfl, rfl, rfl, rfl, fun _ => rfl⟩

/-- C3: `DQNTrainerController.get_action` consumes exactly one uniform draw;
when the draw is below `epsilon` it returns a member of the action set
(modelled nondeterministically through the pick stream — the uniform
distribution itself is not expressible in this embedding); otherwise it
returns the action the action map holds at the index of the maximum of the
forward pass, and that index is the first maximum on ties; with
`epsilon = 1` the draw (always `< 1`) forces the exploring branch, so the
result is always a member of the action set. -/
theorem trainer_getAction_spec (exp : ℚ → ℚ) (tc : DQNTrainerController)
    (s : List ℚ) (rng : Rng)
    (_heps0 : 0 ≤ tc.epsilon) (_heps1 : tc.epsilon ≤ 1)
    (hne : tc.base.actions ≠ [])
    (hu1 : rng.floats rng.fpos < 1) :
    ((tc.getAction exp s rng).2.fpos = rng.fpos + 1) ∧
    (rng.floats rng.fpos < tc.epsilon →
      ∃ a ∈ tc.base.actions, (tc.getAction exp s rng).1 = .ok a) ∧
    (¬ rng.floats rng.fpos < tc.epsilon → ∀ a : Action,
      tc.base.actionMap (argmaxIdx (DQN.forward exp tc.model s)) = some a →
      (tc.getAction exp s rng).1 = .ok a) ∧
    (DQN.forward exp tc.model s ≠ [] →
      IsFirstMax (DQN.forward exp tc.model s)
        (argmaxIdx (DQN.forward exp tc.model s))) ∧
    (tc.epsilon = 1 →
      ∃ a ∈ tc.base.actions, (tc.getAction exp s rng).1 = .ok a) := by
  have hlen : 0 < tc.base.actions.length := List.length_pos.mpr hne
  have hexplore : rng.floats rng.fpos < tc.epsilon →
      ∃ a ∈ tc.base.actions, (tc.getAction exp s rng).1 = .ok a := by
    intro hlt
    have hk : rng.picks rng.ppos % tc.base.actions.length <
        tc.base.actions.length := Nat.mod_lt _ hlen
    refine ⟨tc.base.actions.get ⟨_, hk⟩, List.get_mem _ _ _, ?_⟩
    simp only [DQNTrainerController.getAction, Rng.nextFloat, Rng.nextPick,
      if_pos hlt, List.get?_eq_get hk]
  refine ⟨?_, hexplore, ?_, fun hq => argmaxIdx_isFirstMax _ hq, ?_⟩
  · by_cases hlt : rng.floats rng.fpos < tc.epsilon
    · simp only [DQNTrainerController.getAction, Rng.nextFloat, Rng.nextPick,
        if_pos hlt]
      cases hget : tc.base.actions.get?
          (rng.picks rng.ppos % tc.base.actions.length) <;> simp [hget]
    · simp only [DQNTrainerController.getAction, Rng.nextFloat, if_neg hlt]
      cases hget : tc.base.actionMap
          (argmaxIdx (DQN.forward exp tc.model s)) <;> simp [hget]
  · intro hnlt a hmap
    simp only [DQNTrainerController.getAction, Rng.nextFloat, if_neg hnlt,
      hmap]
  · intro heq
    exact hexplore (by rw [heq]; exact hu1)

/-- C3 witness: with `epsilon = 1` and next uniform draw `1/4`, the trainer
on `{Left, Right}` explores; the chosen action (pick index 0) is `Left` and
lies in the action set, and exactly one uniform draw was consumed. -/
theorem trainer_getAction_spec_witness :
    ((0 : ℚ) ≤ (DQNTrainerController.init [leftA, rightA] demoNet 1).epsilon ∧
     (DQNTrainerController.init [leftA, rightA] demoNet 1).epsilon ≤ 1 ∧
     (DQNTrainerController.init [leftA, rightA] demoNet 1).base.actions ≠ [] ∧
     demoRng.floats demoRng.fpos < 1) ∧
    ((DQNTrainerController.init [leftA, rightA] demoNet 1).getAction
        (fun v => v) [1] demoRng).2.fpos = demoRng.fpos + 1 ∧
    ∃ a ∈ (DQNTrainerController.init [leftA, rightA] demoNet 1).base.actions,
      ((DQNTrainerController.init [leftA, rightA] demoNet 1).getAction
          (fun v => v) [1] demoRng).1 = .ok a := by
  have h0 : (0 : ℚ) ≤ (DQNTrainerController.init [leftA, rightA] demoNet
      1).epsilon := by norm_num [DQNTrainerController.init]
  have h1 : (DQNTrainerController.init [leftA, rightA] demoNet 1).epsilon ≤
      1 := by norm_num [DQNTrainerController.init]
  have h2 : (DQNTrainerController.init [leftA, rightA] demoNet
      1).base.actions ≠ [] := by
    simp [DQNTrainerController.init, Controller.init]
  have h3 : demoRng.floats demoRng.fpos < 1 := by norm_num [demoRng]
  have hmain := trainer_getAction_spec (fun v => v)
    (DQNTrainerController.init [leftA, rightA] demoNet 1) [1] demoRng
    h0 h1 h2 h3
  exact ⟨⟨h0, h1, h2, h3⟩, hmain.1,
    hmain.2.2.2.2 (by norm_num [DQNTrainerController.init])⟩

/-- C4: `DQNTrainerController.train` computes `q_values` and `next_q_values`
by forward passes on the two states, builds a target vector that agrees with
`q_values` everywhere except at index `action.id`, where it is
`reward + max(next_q_values)` with no discount factor, takes the loss as the
mean-squared-error between `q_values` and the target, and constructs a fresh
Adam optimizer with learning rate `0.001` on which it calls `zero_grad`,
`backward` and `step` exactly once each. -/
theorem trainer_train_spec (exp : ℚ → ℚ) (adamUpdate : DQN → DQN)
    (tc : DQNTrainerController) (s ns : List ℚ) (a : Action) (reward : ℚ)
    (_ha : a.id < (DQN.forward exp tc.model s).length) :
    (tc.train exp adamUpdate s a ns reward).1.qValues =
      DQN.forward exp tc.model s ∧
    (tc.train exp adamUpdate s a ns reward).1.nextQValues =
      DQN.forward exp tc.model ns ∧
    (tc.train exp adamUpdate s a ns reward).1.targetQValues.length =
      (tc.train exp adamUpdate s a ns reward).1.qValues.length ∧
    (∀ i, i < (tc.train exp adamUpdate s a ns reward).1.qValues.length →
      (tc.train exp adamUpdate s a ns reward).1.targetQValues.getD i 0 =
        if i = a.id then
          reward + listMax (tc.train exp adamUpdate s a ns reward).1.nextQValues
        else (tc.train exp adamUpdate s a ns reward).1.qValues.getD i 0) ∧
    (tc.train exp adamUpdate s a ns reward).1.loss =
      (∑ i ∈ Finset.range
          (tc.train exp adamUpdate s a ns reward).1.qValues.length,
        ((tc.train exp adamUpdate s a ns reward).1.qValues.getD i 0 -
          (tc.train exp adamUpdate s a ns reward).1.targetQValues.getD i 0)
          ^ 2) /
      ((tc.train exp adamUpdate s a ns reward).1.qValues.length : ℚ) ∧
    (tc.train exp adamUpdate s a ns reward).1.optimizerIsAdam = true ∧
    (tc.train exp adamUpdate s a ns reward).1.optimizerLR = 1 / 1000 ∧
    (tc.train exp adamUpdate s a ns reward).1.zeroGradCalls = 1 ∧
    (tc.train exp adamUpdate s a ns reward).1.backwardCalls = 1 ∧
    (tc.train exp adamUpdate s a ns reward).1.stepCalls = 1 := by
  refine ⟨rfl, rfl, List.length_set .., ?_, ?_, rfl, rfl, rfl, rfl, rfl⟩
  · intro i hi
    exact getD_set_eq_if _ (DQN.forward exp tc.model s) a.id i hi
  · show (((DQN.forward exp tc.model s).zip
        ((DQN.forward exp tc.model s).set a.id
          (reward + listMax (DQN.forward exp tc.model ns)))).map
            (fun p => (p.1 - p.2) ^ 2)).sum /
        ((DQN.forward exp tc.model s).length : ℚ) = _
    rw [zip_map_sub_sq_sum _ _ (List.length_set ..).symm]
    rfl

/-- C4 witness: a concrete `train` call on `demoNet`; the in-range hypothesis
holds and `q_values` is the forward pass on the state. -/
theorem trainer_train_spec_witness :
    leftA.id < (DQN.forward (fun v => v)
      (DQNTrainerController.init [leftA, rightA] demoNet 0).model [1]).length ∧
    ((DQNTrainerController.init [leftA, rightA] demoNet 0).train (fun v => v)
        (fun m => m) [1] leftA [2] 5).1.qValues =
      DQN.forward (fun v => v)
        (DQNTrainerController.init [leftA, rightA] demoNet 0).model [1] := by
  have ha : leftA.id < (DQN.forward (fun v => v)
      (DQNTrainerController.init [leftA, rightA] demoNet 0).model
      [1]).length := by
    norm_num [DQN.forward, DQNTrainerController.init, demoNet, linear, dot,
      reluVec, softmax, leftA]
  exact ⟨ha, (trainer_train_spec (fun v => v) (fun m => m)
    (DQNTrainerController.init [leftA, rightA] demoNet 0) [1] [2] leftA 5
    ha).1⟩

/-- C5: `DQN.forward` returns a vector of length `output_size` (the number
of actions the network was built for), equals the composition
`softmax ∘ fc3 ∘ relu ∘ fc2 ∘ relu ∘ fc1` of the constructed layers, and is
a function of the current parameters alone: any network with the same
parameters produces the same output (there is no other state to read or
write). -/
theorem dqn_forward_spec (exp : ℚ → ℚ) (net : DQN) (x : List ℚ)
    (h : DQN.WF net) :
    (DQN.forward exp net x).length = net.outputSize ∧
    DQN.forward exp net x =
      softmax exp (linear net.params.w3 net.params.b3
        (reluVec (linear net.params.w2 net.params.b2
          (reluVec (linear net.params.w1 net.params.b1 x))))) ∧
    ∀ net' : DQN, net'.params = net.params →
      DQN.forward exp net' x = DQN.forward exp net x := by
  obtain ⟨-, -, -, -, -, -, hw3, -, hb3⟩ := h
  refine ⟨?_, rfl, ?_⟩
  · simp [DQN.forward, softmax, linear, hw3, hb3]
  · intro net' hp
    simp [DQN.forward, hp]

/-- C5 witness: a network with the exact constructed shapes
(`2 → 128 → 64 → 3`) satisfies well-formedness and its forward pass on a
probe input has length `output_size = 3`. -/
theorem dqn_forward_spec_witness :
    DQN.WF wfNet ∧
    (DQN.forward (fun v => v) wfNet [1, 2]).length = wfNet.outputSize :=
  ⟨wfNet_wf, (dqn_forward_spec (fun v => v) wfNet [1, 2] wfNet_wf).1⟩

/-- C6: for an action set with unique ids, the map built at construction by
every controller variant sends each member's id to that member; and the one
operation that returns an updated controller, `train`, leaves the base
(action set and action map) exactly as constructed. -/
theorem controller_actionMap_spec (actions : List Action)
    (hnd : (actions.map Action.id).Nodup) :
    (∀ a ∈ actions, ∀ im : String → Option Action,
      (HumanController.init actions im).base.actionMap a.id = some a) ∧
    (∀ a ∈ actions, ∀ (model : DQN) (ε : ℚ),
      (DQNTrainerController.init actions model ε).base.actionMap a.id =
        some a) ∧
    (∀ a ∈ actions, ∀ model : DQN,
      (DQNPlayerController.init actions model).base.actionMap a.id =
        some a) ∧
    (∀ (exp : ℚ → ℚ) (adamUpdate : DQN → DQN) (model : DQN) (ε : ℚ)
       (s ns : List ℚ) (act : Action) (r : ℚ),
      ((DQNTrainerController.init actions model ε).train exp adamUpdate s act
          ns r).2.base =
        (DQNTrainerController.init actions model ε).base) := by
  refine ⟨?_, ?_, ?_, ?_⟩
  · intro a ha im
    exact mkActionMap_lookup actions hnd a ha
  · intro a ha model ε
    exact mkActionMap_lookup actions hnd a ha
  · intro a ha model
    exact mkActionMap_lookup actions hnd a ha
  · intro exp adamUpdate model ε s ns act r
    rfl

/-- C6 witness: the action set `{Left, Right}` has unique ids, and the map
of a constructed `HumanController` sends `Left.id` to `Left`. -/
theorem controller_actionMap_spec_witness :
    ([leftA, rightA].map Action.id).Nodup ∧
    (HumanController.init [leftA, rightA] hcLR.inputMap).base.actionMap
      leftA.id = some leftA :=
  ⟨by decide,
   (controller_actionMap_spec [leftA, rightA] (by decide)).1 leftA
     (by decide) hcLR.inputMap⟩

/-- C7: when some token of the input sequence resolves (the input map knows
it and its action's id is in the action map), `HumanController.get_action`
returns: it consumes tokens up to the first resolving one, prints exactly
one `"Invalid action"` message per preceding token and none after, and
returns the action the first resolving token looks up — in particular it
never reaches the end of the input, so nothing is raised. -/
theorem human_getAction_spec (hc : HumanController) (ts : List String)
    (h : ∃ t ∈ ts, (hc.resolve t).isSome = true) :
    ∃ (k : Nat) (a : Action), k < ts.length ∧
      (∀ j, j < k → hc.resolve (ts.getD j "") = none) ∧
      hc.resolve (ts.getD k "") = some a ∧
      hc.getAction ts = (List.replicate k "Invalid action", some a) := by
  induction ts with
  | nil => simp at h
  | cons t ts ih =>
      cases hres : hc.resolve t with
      | some a =>
          refine ⟨0, a, by simp, by omega, by simpa using hres, ?_⟩
          simpa using getAction_cons_ok hc t ts a hres
      | none =>
          have h' : ∃ t' ∈ ts, (hc.resolve t').isSome = true := by
            obtain ⟨t', ht', hsome⟩ := h
            rcases List.mem_cons.mp ht' with rfl | hmem
            · rw [hres] at hsome
              simp at hsome
            · exact ⟨t', hmem, hsome⟩
          obtain ⟨k, a, hk, hbefore, hat, heq⟩ := ih h'
          refine ⟨k + 1, a, by simpa using Nat.succ_lt_succ hk, ?_,
            by simpa using hat, ?_⟩
          · intro j hj
            cases j with
            | zero => simpa using hres
            | succ j' => simpa using hbefore j' (by omega)
          · rw [getAction_cons_fail hc t ts hres, heq, List.replicate_succ]

/-- C7 witness: the spec's scenario.  With input map
`{"l": Left, "r": Right}` and input `"x"` then `"l"`, the token `"l"`
resolves; the run prints exactly one error message (for `"x"`) and returns
`Left`. -/
theorem human_getAction_spec_witness :
    (∃ t ∈ ["x", "l"], (hcLR.resolve t).isSome = true) ∧
    ∃ (k : Nat) (a : Action), k < (["x", "l"] : List String).length ∧
      (∀ j, j < k → hcLR.resolve ((["x", "l"] : List String).getD j "") =
        none) ∧
      hcLR.resolve ((["x", "l"] : List String).getD k "") = some a ∧
      hcLR.getAction ["x", "l"] =
        (List.replicate k "Invalid action", some a) :=
  ⟨by decide, human_getAction_spec hcLR ["x", "l"] (by decide)⟩

/-- C10: whenever a constructed `HumanController`'s `get_action` returns, the
returned action belongs to the action set the controller was built with
(the second lookup goes through the controller's own action map, whose
values all come from the set); and a known token whose action id is absent
from the action map is handled exactly like an unrecognized token: one error
message is printed and the loop continues on the rest of the input. -/
theorem human_getAction_membership :
    (∀ (actions : List Action) (im : String → Option Action)
       (ts es : List String) (a : Action),
       (HumanController.init actions im).getAction ts = (es, some a) →
       a ∈ actions) ∧
    (∀ (hc : HumanController) (t : String) (ts : List String) (act : Action),
       hc.inputMap t = some act → hc.base.actionMap act.id = none →
       (hc.getAction (t :: ts) =
         ("Invalid action" :: (hc.getAction ts).1, (hc.getAction ts).2) ∧
        ∀ t' : String, hc.inputMap t' = none →
          hc.getAction (t' :: ts) =
            ("Invalid action" :: (hc.getAction ts).1,
             (hc.getAction ts).2))) := by
  constructor
  · intro actions im ts
    induction ts with
    | nil =>
        intro es a h
        simp [HumanController.getAction] at h
    | cons t ts ih =>
        intro es a h
        cases hres : (HumanController.init actions im).resolve t with
        | some a2 =>
            rw [getAction_cons_ok _ t ts a2 hres] at h
            obtain ⟨-, h2⟩ := Prod.mk.injEq .. ▸ h
            obtain rfl : a2 = a := by simpa using h2
            exact resolve_mem_of_init actions im t a2 hres
        | none =>
            rw [getAction_cons_fail _ t ts hres] at h
            obtain ⟨-, h2⟩ := Prod.mk.injEq .. ▸ h
            exact ih ((HumanController.init actions im).getAction ts).1 a
              (by rw [← h2])
  · intro hc t ts act h1 h2
    have hres : hc.resolve t = none := by
      simp [HumanController.resolve, h1, h2]
    refine ⟨getAction_cons_fail hc t ts hres, ?_⟩
    intro t' h'
    have hres' : hc.resolve t' = none := by
      simp [HumanController.resolve, h']
    exact getAction_cons_fail hc t' ts hres'

/-- C10 witness: on the scenario controller, the run on input `["l"]`
returns `Left`, and `Left` is indeed a member of the constructed action
set. -/
theorem human_getAction_membership_witness :
    hcLR.getAction ["l"] = ([], some leftA) ∧ leftA ∈ [leftA, rightA] :=
  ⟨by decide,
   human_getAction_membership.1 [leftA, rightA] hcLR.inputMap ["l"] []
     leftA (by decide)⟩

end TetrisProject
